import Mathlib

/-!
Shallow embedding of the `openai-chatbot-memory` secure memory store.

The Python sources embedded here are `security/encryption.py` (AES-GCM
utilities), `memory/secure_memory.py` (the SQLite-backed `SecureMemory`
class) and `memory/embedding_memory.py` (the `EmbeddingMemory` subclass
with vector search and batched writes).

Conventions of the embedding:
* Python `bytes` and `str` values are lists of naturals (`Bytes` / `Str`,
  byte values resp. codepoints).
* External collaborators that the spec explicitly treats as opaque
  oracles (the AEAD cipher, base64, the JSON serializer, the UTF-8 string
  codec, the KDF, the embedding model and the floating-point similarity
  computation) are modelled as deterministic Lean functions that satisfy
  the contracts the spec assigns to them; each such definition carries a
  doc comment starting with "Modelled from the spec:".
* Randomness (nonces, fresh keys, salts) is passed in as an explicit
  argument.
* The SQLite connection is a pair of database states: the committed
  snapshot and the pending (in-transaction) state.  `commit` publishes
  the pending state, `rollback` discards it.  Python exceptions are
  `Except PyError` results.
-/

/-- Python `bytes`: a list of byte values. -/
abbrev Bytes := List Nat

/-- Python `str`: a list of codepoints. -/
abbrev Str := List Nat

/-- Python exception classes that the embedded code can raise. -/
inductive PyError where
  | valueError
  | keyError
  | typeError
  | runtimeError
  | operationalError
  | unicodeDecodeError
  | binasciiError
  deriving DecidableEq

instance {ε α : Type} [DecidableEq ε] [DecidableEq α] : DecidableEq (Except ε α) := fun a b =>
  match a, b with
  | .ok x, .ok y =>
    if h : x = y then isTrue (by rw [h]) else isFalse (fun hc => h (Except.ok.inj hc))
  | .ok _, .error _ => isFalse (fun hc => Except.noConfusion hc)
  | .error _, .ok _ => isFalse (fun hc => Except.noConfusion hc)
  | .error x, .error y =>
    if h : x = y then isTrue (by rw [h]) else isFalse (fun hc => h (Except.error.inj hc))

/-! ## Injective encodings used by the opaque-collaborator models -/

/-- Injective packing of a list of naturals into one natural, via iterated
`Nat.pair`.  Backbone of the idealized serializers below. -/
def encodeNatList : List Nat → Nat
  | [] => 0
  | a :: l => Nat.pair a (encodeNatList l) + 1

/-- Fuel-driven inverse of `encodeNatList` (structural recursion so that
concrete instances reduce inside the kernel). -/
def decodeNatListAux : Nat → Nat → List Nat
  | 0, _ => []
  | _ + 1, 0 => []
  | fuel + 1, n + 1 => (Nat.unpair n).1 :: decodeNatListAux fuel (Nat.unpair n).2

/-- Total inverse of `encodeNatList`. -/
def decodeNatList (n : Nat) : List Nat := decodeNatListAux n n

theorem decodeNatListAux_encodeNatList (l : List Nat) :
    ∀ fuel, encodeNatList l ≤ fuel → decodeNatListAux fuel (encodeNatList l) = l := by
  induction l with
  | nil => intro fuel _; cases fuel <;> rfl
  | cons a l ih =>
    intro fuel hle
    have h1 : 1 ≤ encodeNatList (a :: l) := by simp [encodeNatList]
    obtain ⟨f, rfl⟩ : ∃ f, fuel = f + 1 := by
      cases fuel with
      | zero => omega
      | succ f => exact ⟨f, rfl⟩
    rw [encodeNatList, decodeNatListAux, Nat.unpair_pair]
    have hrec : encodeNatList l ≤ f := by
      have := Nat.right_le_pair a (encodeNatList l)
      rw [encodeNatList] at hle
      omega
    rw [ih f hrec]

theorem decodeNatList_encodeNatList (l : List Nat) :
    decodeNatList (encodeNatList l) = l :=
  decodeNatListAux_encodeNatList l _ le_rfl

theorem encodeNatList_injective {l1 l2 : List Nat}
    (h : encodeNatList l1 = encodeNatList l2) : l1 = l2 := by
  have := congrArg decodeNatList h
  simpa [decodeNatList_encodeNatList] using this

/-! ## The Python UTF-8 string codec (`str.encode` / `bytes.decode`) -/

/-- Modelled from the spec: the byte encoding of one codepoint under
Python's UTF-8 codec, idealized as a prefix code (ASCII codepoints map to
themselves, all others to an escaped two-byte form). -/
def encChar (c : Nat) : Bytes := if c < 128 then [c] else [255, c]

/-- Modelled from the spec: Python `str.encode()` — injective byte
serialization of a string. -/
def strEncode : Str → Bytes
  | [] => []
  | c :: s => encChar c ++ strEncode s

/-- Modelled from the spec: Python `bytes.decode('utf-8')` — the partial
inverse of `strEncode`; ill-formed byte sequences (a lone continuation
byte, a truncated escape) are rejected, as the real codec raises
`UnicodeDecodeError`. -/
def strDecode : Bytes → Option Str
  | [] => some []
  | b :: rest =>
    if b < 128 then (strDecode rest).map (b :: ·)
    else if b = 255 then
      match rest with
      | [] => none
      | c :: rest2 => (strDecode rest2).map (c :: ·)
    else none

theorem strDecode_strEncode (s : Str) : strDecode (strEncode s) = some s := by
  induction s with
  | nil => rfl
  | cons c s ih =>
    by_cases h : c < 128
    · rw [strEncode, encChar, if_pos h, List.singleton_append, strDecode.eq_def]
      simp [h, ih]
    · rw [strEncode, encChar, if_neg h]
      rw [show ([255, c] ++ strEncode s) = 255 :: c :: strEncode s from rfl]
      rw [strDecode.eq_def]
      simp [ih]

/-! ## The Python JSON serializer, restricted to lists of strings -/

/-- Length-prefixed flattening of a list of strings (each string preceded
by its length). -/
def dumpSegs : List Str → List Nat
  | [] => []
  | s :: ts => s.length :: (s ++ dumpSegs ts)

/-- Reads `count` length-prefixed segments; `none` on malformed input. -/
def parseSegs : Nat → List Nat → Option (List Str)
  | 0, [] => some []
  | 0, _ :: _ => none
  | _ + 1, [] => none
  | count + 1, len :: rest =>
    if len ≤ rest.length then
      (parseSegs count (rest.drop len)).map (rest.take len :: ·)
    else none

/-- Modelled from the spec: `json.dumps` on a list of strings ("serializes
tags"), idealized as an injective serialization into a string. -/
def jsonDumps (ts : List Str) : Str := ts.length :: dumpSegs ts

/-- Modelled from the spec: `json.loads` on the tags column — the partial
inverse of `jsonDumps`; strings outside its range are rejected, as the
real parser raises `json.JSONDecodeError`. -/
def jsonLoads : Str → Option (List Str)
  | [] => none
  | count :: rest => parseSegs count rest

theorem parseSegs_dumpSegs (ts : List Str) :
    parseSegs ts.length (dumpSegs ts) = some ts := by
  induction ts with
  | nil => rfl
  | cons s ts ih =>
    rw [List.length_cons, dumpSegs, parseSegs]
    rw [if_pos (by simp), List.take_left' rfl, List.drop_left' rfl, ih]
    rfl

theorem jsonLoads_jsonDumps (ts : List Str) : jsonLoads (jsonDumps ts) = some ts := by
  rw [jsonDumps, jsonLoads, parseSegs_dumpSegs]

/-! ## The Python base64 codec -/

/-- Modelled from the spec: `base64.b64encode(..).decode('utf-8')` —
injective textual serialization of a byte string, here a length-prefixed
copy.  Note that the real codec happily encodes byte strings of any
length; length is not checked anywhere in this code path. -/
def b64encode (bs : Bytes) : Str := bs.length :: bs

/-- Modelled from the spec: `base64.b64decode` — partial inverse of
`b64encode`; strings outside its range are rejected, as the real decoder
raises `binascii.Error`. -/
def b64decode : Str → Option Bytes
  | [] => none
  | len :: rest => if rest.length = len then some rest else none

theorem b64decode_b64encode (bs : Bytes) : b64decode (b64encode bs) = some bs := by
  rw [b64encode, b64decode, if_pos rfl]

/-! ## The AEAD cipher oracle (AES-256-GCM)

The spec (section 1) treats "the raw AEAD cipher primitive" as "an opaque
encrypt/decrypt oracle".  The model keeps the two ingredients of GCM that
the source code distinguishes: the raw CTR keystream layer (which
`Crypto.Cipher.AES.new(..).decrypt` applies with *no* authentication) and
the 16-byte authentication tag appended to the ciphertext (which
`cryptography`'s `AESGCM.decrypt` verifies before releasing plaintext).
-/

/-- Modelled from the spec: one keystream byte of the CTR layer for a
given key and nonce. -/
def ksByte (key nonce : Bytes) (i : Nat) : Nat :=
  Nat.pair (encodeNatList key) (Nat.pair (encodeNatList nonce) i) % 256

/-- Keystream prefix of a given length. -/
def keystream (key nonce : Bytes) (len : Nat) : Bytes :=
  (List.range len).map (ksByte key nonce)

/-- Modelled from the spec: the raw CTR encryption/decryption layer of
AES-GCM — XOR with the keystream; its own inverse. -/
def ctrCrypt (key nonce data : Bytes) : Bytes :=
  List.zipWith Nat.xor data (keystream key nonce data.length)

theorem keystream_length (key nonce : Bytes) (len : Nat) :
    (keystream key nonce len).length = len := by
  simp [keystream]

theorem ctrCrypt_length (key nonce data : Bytes) :
    (ctrCrypt key nonce data).length = data.length := by
  simp [ctrCrypt, keystream_length]

theorem zipWith_xor_cancel : ∀ (l ks : List Nat), l.length ≤ ks.length →
    List.zipWith Nat.xor (List.zipWith Nat.xor l ks) ks = l := by
  intro l
  induction l with
  | nil => intro ks _; rfl
  | cons a l ih =>
    intro ks hlen
    cases ks with
    | nil => simp at hlen
    | cons k ks =>
      simp only [List.zipWith]
      have hx : Nat.xor (Nat.xor a k) k = a := Nat.xor_cancel_right k a
      rw [hx, ih ks (by simpa using hlen)]

theorem ctrCrypt_ctrCrypt (key nonce data : Bytes) :
    ctrCrypt key nonce (ctrCrypt key nonce data) = data := by
  show List.zipWith Nat.xor (ctrCrypt key nonce data)
      (keystream key nonce (ctrCrypt key nonce data).length) = data
  rw [ctrCrypt_length, ctrCrypt]
  exact zipWith_xor_cancel data _ (le_of_eq (keystream_length key nonce data.length).symm)

/-- Modelled from the spec: the 16-byte GCM authentication tag over
(key, nonce, ciphertext body), idealized as a collision-free
authenticator (the spec postulates that authentication always fails
under a wrong key). -/
def gcmTag (key nonce body : Bytes) : Bytes :=
  Nat.pair (encodeNatList key) (Nat.pair (encodeNatList nonce) (encodeNatList body))
    :: List.replicate 15 0

theorem gcmTag_length (key nonce body : Bytes) : (gcmTag key nonce body).length = 16 := by
  simp [gcmTag]

theorem gcmTag_key_injective {k1 k2 n1 n2 b1 b2 : Bytes}
    (h : gcmTag k1 n1 b1 = gcmTag k2 n2 b2) : k1 = k2 := by
  rw [gcmTag, gcmTag] at h
  have hhead : Nat.pair (encodeNatList k1) (Nat.pair (encodeNatList n1) (encodeNatList b1)) =
      Nat.pair (encodeNatList k2) (Nat.pair (encodeNatList n2) (encodeNatList b2)) :=
    (List.cons.injEq _ _ _ _ ▸ h).1
  exact encodeNatList_injective (Nat.pair_eq_pair.mp hhead).1

/-- Modelled from the spec: `AESGCM.encrypt(nonce, data, None)` — CTR body
followed by the 16-byte tag. -/
def aeadSeal (key nonce pt : Bytes) : Bytes :=
  ctrCrypt key nonce pt ++ gcmTag key nonce (ctrCrypt key nonce pt)

/-- Modelled from the spec: `AESGCM.decrypt(nonce, data, None)` — splits
off the trailing 16-byte tag, verifies it, and only then releases the
CTR-decrypted body; returns `none` (the real library raises
`InvalidTag`) on any mismatch or on input shorter than a tag. -/
def aeadOpen (key nonce ct : Bytes) : Option Bytes :=
  if 16 ≤ ct.length then
    if ct.drop (ct.length - 16) = gcmTag key nonce (ct.take (ct.length - 16)) then
      some (ctrCrypt key nonce (ct.take (ct.length - 16)))
    else none
  else none

theorem aeadSeal_length (key nonce pt : Bytes) :
    (aeadSeal key nonce pt).length = pt.length + 16 := by
  simp [aeadSeal, ctrCrypt_length, gcmTag_length]

theorem aeadOpen_aeadSeal (key nonce pt : Bytes) :
    aeadOpen key nonce (aeadSeal key nonce pt) = some pt := by
  have hlen := aeadSeal_length key nonce pt
  have hbody : (aeadSeal key nonce pt).take ((aeadSeal key nonce pt).length - 16) =
      ctrCrypt key nonce pt := by
    rw [hlen, Nat.add_sub_cancel, aeadSeal, List.take_left' (ctrCrypt_length key nonce pt)]
  have htag : (aeadSeal key nonce pt).drop ((aeadSeal key nonce pt).length - 16) =
      gcmTag key nonce (ctrCrypt key nonce pt) := by
    rw [hlen, Nat.add_sub_cancel, aeadSeal, List.drop_left' (ctrCrypt_length key nonce pt)]
  rw [aeadOpen, if_pos (show 16 ≤ (aeadSeal key nonce pt).length by omega),
    hbody, htag, if_pos rfl, ctrCrypt_ctrCrypt]

theorem aeadOpen_wrong_key (k1 k2 nonce pt : Bytes) (hne : k1 ≠ k2) :
    aeadOpen k2 nonce (aeadSeal k1 nonce pt) = none := by
  have hlen := aeadSeal_length k1 nonce pt
  have hbody : (aeadSeal k1 nonce pt).take ((aeadSeal k1 nonce pt).length - 16) =
      ctrCrypt k1 nonce pt := by
    rw [hlen, Nat.add_sub_cancel, aeadSeal, List.take_left' (ctrCrypt_length k1 nonce pt)]
  have htag : (aeadSeal k1 nonce pt).drop ((aeadSeal k1 nonce pt).length - 16) =
      gcmTag k1 nonce (ctrCrypt k1 nonce pt) := by
    rw [hlen, Nat.add_sub_cancel, aeadSeal, List.drop_left' (ctrCrypt_length k1 nonce pt)]
  rw [aeadOpen, if_pos (show 16 ≤ (aeadSeal k1 nonce pt).length by omega), hbody, htag]
  rw [if_neg]
  intro hcontra
  exact hne (gcmTag_key_injective hcontra)

/-! ## security/encryption.py -/

/-- Modelled from the spec: the PBKDF2-HMAC-SHA256 derivation inside
`generate_key` — an opaque KDF producing a 32-byte key from passphrase
and salt. -/
def pbkdf2Key (passphrase : Str) (salt : Bytes) : Bytes :=
  (List.range 32).map
    (fun i => Nat.pair (Nat.pair (encodeNatList passphrase) (encodeNatList salt)) i % 256)

/-- Embeds `generate_key` (encryption.py lines 16-48).  Randomness
(`os.urandom`) is passed in as `randKey`/`randSalt`. -/
def generate_key (passphrase : Option Str) (randKey randSalt : Bytes) : Bytes × Bytes :=
  match passphrase with
  | some p => (pbkdf2Key p randSalt, randSalt)
  | none => (randKey, randSalt)

/-- Embeds `encrypt_with_key` (encryption.py lines 50-74): AEAD-seal the
UTF-8 encoding of `data`; returns the sealed bytes and the nonce used.
The fresh random nonce is passed in as `nonce`. -/
def encrypt_with_key (data : Str) (key : Bytes) (nonce : Bytes) : Bytes × Bytes :=
  (aeadSeal key nonce (strEncode data), nonce)

/-- Embeds `decrypt_with_key` (encryption.py lines 76-99): authenticated
decryption followed by UTF-8 decoding; every failure inside the `try`
block is re-raised as `ValueError("Failed to decrypt data: ...")`. -/
def decrypt_with_key (encrypted : Bytes) (key : Bytes) (nonce : Bytes) : Except PyError Str :=
  match aeadOpen key nonce encrypted with
  | none => .error .valueError
  | some bs =>
    match strDecode bs with
    | none => .error .valueError
    | some s => .ok s

/-- Embeds `key_to_string` (encryption.py lines 101-113). -/
def key_to_string (key salt : Bytes) : Str := b64encode (key ++ salt)

/-- Embeds `string_to_key` (encryption.py lines 115-126): base64-decode
and split at byte 32.  No length validation is performed by the source. -/
def string_to_key (keyString : Str) : Except PyError (Bytes × Bytes) :=
  match b64decode keyString with
  | none => .error .binasciiError
  | some combined => .ok (combined.take 32, combined.drop 32)

theorem decrypt_with_key_encrypt_with_key (s : Str) (key nonce : Bytes) :
    decrypt_with_key (encrypt_with_key s key nonce).1 key nonce = .ok s := by
  simp only [encrypt_with_key, decrypt_with_key, aeadOpen_aeadSeal, strDecode_strEncode]

theorem decrypt_with_key_wrong_key (s : Str) (k1 k2 nonce : Bytes) (hne : k1 ≠ k2) :
    decrypt_with_key (encrypt_with_key s k1 nonce).1 k2 nonce = .error .valueError := by
  simp only [encrypt_with_key, decrypt_with_key, aeadOpen_wrong_key k1 k2 nonce _ hne]

/-! ## The SQLite database model

The spec (section 1) treats the storage engine as an external "ACID
transactional store".  A connection is modelled as the committed snapshot
plus the pending in-transaction state; `commit` publishes the pending
state and `rollback` discards it, which is exactly the behavior of the
Python `sqlite3` connection that the source manipulates.  The
`created_at` timestamp columns are not modelled (no embedded claim
mentions them).
-/

/-- Row of the `contexts` table (secure_memory.py lines 86-93). -/
structure ContextRow where
  id : Str
  name : Str
  descr : Option Str
  deriving DecidableEq

/-- Row of the `memories` table (secure_memory.py lines 96-107).
`contentHash` is whatever value the INSERT binds to the `content_hash`
column, `tags` is the TEXT column (NULL or a serialized JSON string). -/
structure MemoryRow where
  id : Nat
  contextId : Str
  content : Bytes
  contentHash : Str
  importance : Int
  tags : Option Str
  deriving DecidableEq

/-- Row of the `embeddings` table (embedding_memory.py lines 46-52); the
vector is stored through `numpy.tobytes` and read back with
`numpy.frombuffer`, modelled directly as the list of float values. -/
structure EmbeddingRow where
  memoryId : Nat
  embedding : List ℚ
  deriving DecidableEq

/-- One database state. `nextMemoryId` models the AUTOINCREMENT counter
of the `memories` table (first id handed out is 1). -/
structure DB where
  contexts : List ContextRow
  memories : List MemoryRow
  embeddings : List EmbeddingRow
  nextMemoryId : Nat
  deriving DecidableEq

/-- A `sqlite3` connection: committed snapshot plus pending state. -/
structure Conn where
  committed : DB
  pending : DB
  deriving DecidableEq

/-- Publishes the pending state (`conn.commit()`). -/
def Conn.commit (c : Conn) : Conn := ⟨c.pending, c.pending⟩

/-- Discards the pending state (`conn.rollback()`). -/
def Conn.rollback (c : Conn) : Conn := ⟨c.committed, c.committed⟩

/-- The empty freshly-initialized database (`_initialize_database`),
after schema creation; AUTOINCREMENT ids start at 1. -/
def DB.empty : DB := ⟨[], [], [], 1⟩

namespace SecureMemory

/-- How the encryption key is resolved at construction time
(`_setup_encryption_key`, secure_memory.py lines 59-78): a key file that
exists (with its raw content), a key path with no file yet, a
passphrase, or nothing. -/
inductive KeySource where
  | file (content : Bytes)
  | newFile
  | passphrase (p : Str)
  | random
  deriving DecidableEq

/-- Embeds `_setup_encryption_key` (secure_memory.py lines 59-78).
`freshKey`/`freshSalt` stand for the `os.urandom` draws of
`generate_key`.  In the key-file branch the source runs
`string_to_key(key_data.decode())` and keeps whatever key comes back —
there is no length or shape validation. -/
def setup_encryption_key (src : KeySource) (freshKey freshSalt : Bytes) :
    Except PyError Bytes :=
  match src with
  | .file data =>
    match strDecode data with
    | none => .error .unicodeDecodeError
    | some s =>
      match string_to_key s with
      | .error e => .error e
      | .ok (key, _) => .ok key
  | .newFile => .ok (generate_key none freshKey freshSalt).1
  | .passphrase p => .ok (generate_key (some p) freshKey freshSalt).1
  | .random => .ok (generate_key none freshKey freshSalt).1

/-- Embeds `create_context` (secure_memory.py lines 130-153); the fresh
`uuid4` is passed in as `ctxId`. -/
def create_context (conn : Conn) (ctxId : Str) (name : Str) (descr : Option Str) :
    Conn × Str :=
  let db := conn.pending
  (Conn.commit ⟨conn.committed, { db with contexts := db.contexts ++ [⟨ctxId, name, descr⟩] }⟩,
    ctxId)

/-- Embeds `store` (secure_memory.py lines 155-198).  The fresh random
nonce of `encrypt_with_key` is passed in as `nonce`.  Note the INSERT at
lines 188-195: it binds `(context_id, combined_data, content, importance,
tags_json)` to the columns `(context_id, content, content_hash,
importance, tags)` — the third bound value is the raw plaintext
`content`, which therefore lands in the `content_hash` column. -/
def store (conn : Conn) (key nonce : Bytes) (content : Str) (contextId : Str)
    (importance : Int) (tags : List Str) : Except PyError (Conn × Nat) :=
  let db := conn.pending
  if (db.contexts.find? (fun c => c.id == contextId)).isNone then
    .error .valueError
  else
    let combined := nonce ++ (encrypt_with_key content key nonce).1
    let tagsJson := if tags.isEmpty then none else some (jsonDumps tags)
    let mid := db.nextMemoryId
    let row : MemoryRow := ⟨mid, contextId, combined, content, importance, tagsJson⟩
    .ok (Conn.commit ⟨conn.committed,
      { db with memories := db.memories ++ [row], nextMemoryId := mid + 1 }⟩, mid)

/-- Result shape of `retrieve` and of each `search` hit (a Python dict
with the decrypted content and the parsed tag list; `created_at` is not
modelled). -/
structure MemoryRecord where
  id : Nat
  content : Str
  importance : Int
  tags : List Str
  deriving DecidableEq

/-- Embeds `retrieve` (secure_memory.py lines 200-243): find the row,
split the blob at byte 12, authenticated-decrypt, parse the tags column
(`json.loads(row[2]) if row[2] else []`). -/
def retrieve (conn : Conn) (key : Bytes) (memoryId : Nat) :
    Except PyError MemoryRecord :=
  match conn.pending.memories.find? (fun r => r.id == memoryId) with
  | none => .error .valueError
  | some row =>
    match decrypt_with_key (row.content.drop 12) key (row.content.take 12) with
    | .error e => .error e
    | .ok content =>
      match row.tags with
      | none => .ok ⟨memoryId, content, row.importance, []⟩
      | some tagsJson =>
        match jsonLoads tagsJson with
        | none => .error .valueError
        | some tags => .ok ⟨memoryId, content, row.importance, tags⟩

/-- Embeds `_decrypt` (secure_memory.py lines 422-445): splits the blob
at byte 12 and calls `AES.new(key, AES.MODE_GCM, nonce=nonce).decrypt(
ciphertext)`.  `Crypto.Cipher`'s plain `decrypt` applies only the raw
CTR keystream — it never verifies the GCM tag (that would require
`decrypt_and_verify`) — so the trailing 16 tag bytes are raw-decrypted
along with the body and no authentication happens.  Failures inside the
`try` (in practice: UTF-8 decoding) are re-raised as `ValueError`. -/
def decryptNoVerify (key : Bytes) (data : Bytes) : Except PyError Str :=
  match strDecode (ctrCrypt key (data.take 12) (data.drop 12)) with
  | none => .error .valueError
  | some s => .ok s

/-- Lower-cases one codepoint (`str.lower`, restricted to ASCII). -/
def lowerChar (c : Nat) : Nat := if 65 ≤ c && c ≤ 90 then c + 32 else c

/-- Modelled from the spec: Python `str.lower()`. -/
def strLower (s : Str) : Str := s.map lowerChar

/-- Checks whether a list starts with the given prefix. -/
def startsWithList : Str → Str → Bool
  | _, [] => true
  | [], _ :: _ => false
  | a :: as, b :: bs => a == b && startsWithList as bs

/-- Modelled from the spec: the Python substring test `needle in hay`. -/
def containsSubstring (hay needle : Str) : Bool :=
  (List.range (hay.length + 1)).any (fun i => startsWithList (hay.drop i) needle)

/-- The per-row loop of `search` (secure_memory.py lines 281-298): try to
`_decrypt` the row (on failure log and skip), test the case-insensitive
substring match, and for matching rows parse `json.loads(row[3])` — note
that this parse is outside the try/except, and `row[3]` may be NULL:
`json.loads(None)` raises `TypeError` and aborts the whole search. -/
def searchRows (key : Bytes) (query : Str) :
    List MemoryRow → Except PyError (List MemoryRecord)
  | [] => .ok []
  | row :: rest =>
    match decryptNoVerify key row.content with
    | .error _ => searchRows key query rest
    | .ok content =>
      if containsSubstring (strLower content) (strLower query) then
        match row.tags with
        | none => .error .typeError
        | some tagsJson =>
          match jsonLoads tagsJson with
          | none => .error .valueError
          | some tags =>
            match searchRows key query rest with
            | .error e => .error e
            | .ok results => .ok (⟨row.id, content, row.importance, tags⟩ :: results)
      else searchRows key query rest

/-- Embeds `search` (secure_memory.py lines 245-300).  When `tags` is
non-empty the generated SQL contains one `json_array_contains(tags, ?)`
condition per tag; SQLite has no built-in function of that name and the
program registers none, so `cursor.execute` raises
`sqlite3.OperationalError` before any row is produced. -/
def search (conn : Conn) (key : Bytes) (query : Str) (contextId : Option Str)
    (tags : List Str) : Except PyError (List MemoryRecord) :=
  if !tags.isEmpty then
    .error .operationalError
  else
    let rows := match contextId with
      | some cid => conn.pending.memories.filter (fun r => r.contextId == cid)
      | none => conn.pending.memories
    searchRows key query rows

/-- Embeds `delete_memory` (secure_memory.py lines 347-359). -/
def delete_memory (conn : Conn) (memoryId : Nat) : Conn :=
  Conn.commit ⟨conn.committed,
    { conn.pending with memories := conn.pending.memories.filter (fun r => r.id != memoryId) }⟩

/-- Embeds `clear_context` (secure_memory.py lines 398-420): SELECT the
ids of the context's memories, delete them one by one via
`delete_memory`, DELETE the context row, commit.  The function body has
no `return` statement, so the Python call returns `None`: the second
component is that return value. -/
def clear_context (conn : Conn) (contextId : Str) : Conn × Option Nat :=
  let ids := (conn.pending.memories.filter (fun r => r.contextId == contextId)).map (·.id)
  let conn1 := ids.foldl (fun c mid => delete_memory c mid) conn
  (Conn.commit ⟨conn1.committed,
    { conn1.pending with contexts := conn1.pending.contexts.filter (fun c => c.id != contextId) }⟩,
    none)

end SecureMemory

namespace EmbeddingMemory

/-- Embeds `EmbeddingMemory.store` (embedding_memory.py lines 56-84):
base `store` (which commits), then INSERT of the embedding row, then a
second commit.  The sentence-transformer model (`self.model.encode`) is
the external text-to-vector oracle `embed`. -/
def store (conn : Conn) (key nonce : Bytes) (embed : Str → List ℚ) (content : Str)
    (contextId : Str) (importance : Int) (tags : List Str) :
    Except PyError (Conn × Nat) :=
  match SecureMemory.store conn key nonce content contextId importance tags with
  | .error e => .error e
  | .ok (conn1, mid) =>
    .ok (Conn.commit ⟨conn1.committed,
      { conn1.pending with
        embeddings := conn1.pending.embeddings ++ [⟨mid, embed content⟩] }⟩, mid)

/-- One returned row of `semantic_search`: the raw columns selected from
the JOIN, plus the computed similarity.  Note the types: `content` is
the raw BLOB bytes and `tags` the raw TEXT column (or NULL), exactly as
fetched — the source copies `row[1]` and `row[3]` into the result dict
without decrypting or parsing them. -/
structure SemanticHit where
  id : Nat
  content : Bytes
  importance : Int
  tags : Option Str
  similarity : ℚ
  deriving DecidableEq

/-- Sort relation of `semantic_search`'s
`results.sort(key=lambda x: (x['similarity'], x['importance']),
reverse=True)`: descending lexicographic on (similarity, importance). -/
def hitGE (x y : SemanticHit) : Prop :=
  y.similarity < x.similarity ∨
    (y.similarity = x.similarity ∧ y.importance ≤ x.importance)

instance : DecidableRel hitGE := fun x y => by
  unfold hitGE; infer_instance

instance : IsTotal SemanticHit hitGE where
  total x y := by
    rcases lt_trichotomy y.similarity x.similarity with h | h | h
    · exact Or.inl (Or.inl h)
    · rcases le_total y.importance x.importance with h2 | h2
      · exact Or.inl (Or.inr ⟨h, h2⟩)
      · exact Or.inr (Or.inr ⟨h.symm, h2⟩)
    · exact Or.inr (Or.inl h)

instance : IsTrans SemanticHit hitGE where
  trans x y z hxy hyz := by
    rcases hxy with h1 | ⟨h1, h1b⟩ <;> rcases hyz with h2 | ⟨h2, h2b⟩
    · exact Or.inl (h2.trans h1)
    · exact Or.inl (lt_of_le_of_lt (le_of_eq h2) h1)
    · exact Or.inl (lt_of_lt_of_le h2 (le_of_eq h1))
    · exact Or.inr ⟨h2.trans h1, h2b.trans h1b⟩

/-- Embeds `semantic_search` (embedding_memory.py lines 86-149): embed the
query, JOIN memories with embeddings (optionally filtered by context),
score each row, keep rows with `similarity >= threshold`, sort descending
by `(similarity, importance)`, truncate to `limit`.  The numpy cosine
computation `dot(a,b)/(norm(a)*norm(b))` runs in floating point and is
the external numeric oracle `sim`. -/
def semantic_search (conn : Conn) (embed : Str → List ℚ) (sim : List ℚ → List ℚ → ℚ)
    (query : Str) (contextId : Option Str) (limit : Nat) (threshold : ℚ) :
    List SemanticHit :=
  let q := embed query
  let rows : List MemoryRow := match contextId with
    | some cid => conn.pending.memories.filter (fun r => r.contextId == cid)
    | none => conn.pending.memories
  let scored : List SemanticHit := rows.filterMap (fun m =>
    match conn.pending.embeddings.find? (fun e => e.memoryId == m.id) with
    | none => none
    | some e =>
      if threshold ≤ sim q e.embedding then
        some ⟨m.id, m.content, m.importance, m.tags, sim q e.embedding⟩
      else none)
  (List.insertionSort hitGE scored).take limit

/-- One element of `batch_store`'s input list: a Python dict that may
lack the `'content'` key (`memory_data['content']` raises `KeyError`
when absent) and defaults `importance` to 5 and `tags` to `[]`. -/
structure BatchItem where
  content : Option Str
  importance : Int := 5
  tags : List Str := []
  deriving DecidableEq

/-- The per-item loop of `batch_store` (embedding_memory.py lines
191-206): extract the content (KeyError if missing), call the base
`store` — which COMMITS the memory row, ending the explicit transaction —
then INSERT the embedding row without committing.  On failure the loop
stops with the connection in its current state. -/
def batchLoop (key : Bytes) (nonces : Nat → Bytes) (embed : Str → List ℚ)
    (contextId : Str) : Nat → Conn → List BatchItem →
    Except (Conn × PyError) (Conn × List Nat)
  | _, conn, [] => .ok (conn, [])
  | i, conn, item :: rest =>
    match item.content with
    | none => .error (conn, .keyError)
    | some content =>
      match SecureMemory.store conn key (nonces i) content contextId
          item.importance item.tags with
      | .error e => .error (conn, e)
      | .ok (conn1, mid) =>
        let conn2 : Conn := ⟨conn1.committed,
          { conn1.pending with
            embeddings := conn1.pending.embeddings ++ [⟨mid, embed content⟩] }⟩
        match batchLoop key nonces embed contextId (i + 1) conn2 rest with
        | .error e => .error e
        | .ok (connN, mids) => .ok (connN, mid :: mids)

/-- Embeds `batch_store` (embedding_memory.py lines 168-215): BEGIN
TRANSACTION, run the per-item loop, commit and return the ids on
success; on any failure `conn.rollback()` (which can only undo writes
since the *last* commit — the base `store` commits once per item) and
re-raise as `RuntimeError("Batch store failed: ...")`.  The result pairs
the final connection state with the Python outcome. -/
def batch_store (conn : Conn) (key : Bytes) (nonces : Nat → Bytes)
    (embed : Str → List ℚ) (memories : List BatchItem) (contextId : Str) :
    Conn × Except PyError (List Nat) :=
  match batchLoop key nonces embed contextId 0 conn memories with
  | .ok (connN, mids) => (Conn.commit connN, .ok mids)
  | .error (connE, _) => (Conn.rollback connE, .error .runtimeError)

end EmbeddingMemory

/-! ## Concrete fixtures -/

/-- A store key for concrete runs (the model puts no length constraint on
keys, mirroring the absence of any key-length check in the source). -/
def keyA : Bytes := [7, 21]

/-- The 12-byte nonce drawn by `os.urandom(12)` in concrete runs. -/
def nonce0 : Bytes := List.replicate 12 0

/-- Identifier of the pre-created context in the fixtures ("c"). -/
def ctxId0 : Str := [99]

/-- A fresh store holding a single empty context. -/
def conn0 : Conn :=
  let db : DB := ⟨[⟨ctxId0, [67], none⟩], [], [], 1⟩
  ⟨db, db⟩

/-- Plaintext "secret" stored in the C1 run. -/
def contentC1 : Str := [115, 101, 99, 114, 101, 116]

/-- Plaintext "hi" used by the forged-blob run. -/
def msgC2 : Str := [104, 105]

/-- A blob with valid framing but no authentication tag at all: the nonce
followed by a bare CTR encryption of "hi".  No call to `aeadSeal`
produces it (every sealed blob carries a 16-byte tag), so every
authenticated decryption rejects it. -/
def forgedBlob : Bytes := nonce0 ++ ctrCrypt keyA nonce0 (strEncode msgC2)

/-- Batch input whose second dict lacks the `'content'` key. -/
def batchItems : List EmbeddingMemory.BatchItem :=
  [⟨some [97], 5, []⟩, ⟨none, 5, []⟩]

/-- Nonce supply for batched stores. -/
def nonces0 : Nat → Bytes := fun _ => nonce0

/-- A concrete stand-in for the sentence-transformer model. -/
def embed0 : Str → List ℚ := fun _ => [1]

/-- A concrete stand-in for the numpy cosine-similarity computation. -/
def sim0 : List ℚ → List ℚ → ℚ := fun _ _ => 1

/-- Tag "A". -/
def tagA : Str := [65]

/-- Tag "B". -/
def tagB : Str := [66]

/-- A store holding three memories tagged {A}, {B} and {A,B} in one
context (the spec's own tag-AND-filter scenario). -/
def connC6 : Conn :=
  let db : DB := ⟨[⟨ctxId0, [67], none⟩],
    [⟨1, ctxId0, [], [], 5, some (jsonDumps [tagA])⟩,
      ⟨2, ctxId0, [], [], 5, some (jsonDumps [tagB])⟩,
      ⟨3, ctxId0, [], [], 5, some (jsonDumps [tagA, tagB])⟩],
    [], 4⟩
  ⟨db, db⟩

/-- A store holding two memories in one context (for `clear_context`). -/
def connC8 : Conn :=
  let db : DB := ⟨[⟨ctxId0, [67], none⟩],
    [⟨1, ctxId0, [], [], 5, none⟩, ⟨2, ctxId0, [], [], 5, none⟩], [], 3⟩
  ⟨db, db⟩

/-- A store with one memory and its embedding row (for semantic search). -/
def connC7 : Conn :=
  let db : DB := ⟨[⟨ctxId0, [67], none⟩],
    [⟨1, ctxId0, [3, 4], [], 5, none⟩], [⟨1, [1]⟩], 2⟩
  ⟨db, db⟩

/-- Three raw bytes; their base64 encoding is well-formed base64 text but
far too short to contain a 32-byte key and a 16-byte salt. -/
def shortKeyBytes : Bytes := [1, 2, 3]

/-- Content of a malformed key file: the base64 text of three bytes. -/
def keyFileC9 : Bytes := strEncode (b64encode shortKeyBytes)

/-! ## Claim theorems -/

/-- C1: refuted on the code — `store` writes the raw plaintext into the
`content_hash` column of the persisted row (secure_memory.py line 194
binds `content` where the hash belongs), so the database does hold the
plaintext outside the encrypted blob.  Storing "secret" in the fresh
store commits a row whose `content_hash` column equals the plaintext. -/
theorem store_persists_plaintext_in_hash_column :
    (SecureMemory.store conn0 keyA nonce0 contentC1 ctxId0 5 []).map
      (fun p => (p.2, p.1.committed.memories.map (fun r => (r.id, r.contextId, r.contentHash)))) =
    .ok (1, [(1, ctxId0, contentC1)]) := by
  decide

/-- C2: refuted on the code — the search-path decryptor `_decrypt` calls
`AES.decrypt` without `decrypt_and_verify`, so it performs no
authentication: a forged blob that carries no valid tag (and which the
authenticated `decrypt_with_key` path of `retrieve` rejects with the
DecryptionError-style `ValueError`) is happily turned into content. -/
theorem search_decrypt_accepts_unauthenticated_blob :
    decrypt_with_key (forgedBlob.drop 12) keyA (forgedBlob.take 12) = .error .valueError ∧
    SecureMemory.decryptNoVerify keyA forgedBlob = .ok msgC2 := by
  constructor
  · decide
  · decide

/-- C3: refuted on the code — `batch_store` is not atomic: the base
`store` it calls per item issues a COMMIT, so when the second item of a
two-item batch raises (here: a dict without `'content'`), the rollback
can only discard the uncommitted embedding insert; the first memory row
stays committed (without its embedding) and the error surfaces as a
plain `RuntimeError`. -/
theorem batch_store_leaves_partial_batch_committed :
    (EmbeddingMemory.batch_store conn0 keyA nonces0 embed0 batchItems ctxId0).2 =
      .error .runtimeError ∧
    (EmbeddingMemory.batch_store conn0 keyA nonces0 embed0 batchItems ctxId0).1.committed.memories.map
      (fun r => (r.id, r.contextId)) = [(1, ctxId0)] ∧
    (EmbeddingMemory.batch_store conn0 keyA nonces0 embed0 batchItems ctxId0).1.committed.embeddings = [] ∧
    conn0.committed.memories = [] := by
  refine ⟨by decide, by decide, by decide, by decide⟩

/-- C6: refuted on the code — the tag filter of `search` emits the SQL
function `json_array_contains`, which SQLite does not define and the
program never registers, so searching the {A},{B},{A,B} fixture with
tags=["A","B"] raises `sqlite3.OperationalError` instead of returning
the {A,B} memory. -/
theorem search_with_tags_raises_operational_error :
    SecureMemory.search connC6 keyA [] (some ctxId0) [tagA, tagB] =
      .error .operationalError := by
  decide

/-- C9: refuted on the code — `_setup_encryption_key` feeds the key file
through `string_to_key`, which base64-decodes and slices `[:32]`/`[32:]`
with no validation: a key file holding the base64 of only three bytes is
accepted without any error and the store proceeds with the truncated
3-byte key. -/
theorem malformed_key_file_accepted_truncated :
    SecureMemory.setup_encryption_key (.file keyFileC9) [] [] = .ok shortKeyBytes ∧
    shortKeyBytes.length ≠ 32 := by
  constructor
  · decide
  · decide

/-- C8 counterexample: clearing a context holding two memories deletes
both of them but evaluates to `None` — not to the count 2 the claim
promises (the Python function is annotated `-> None` and has no return
statement). -/
theorem clear_context_returns_no_count :
    (SecureMemory.clear_context connC8 ctxId0).2 = none ∧
    (SecureMemory.clear_context connC8 ctxId0).2 ≠ some 2 ∧
    connC8.pending.memories.length = 2 ∧
    (SecureMemory.clear_context connC8 ctxId0).1.committed.memories.length = 0 := by
  refine ⟨by decide, by decide, by decide, by decide⟩

theorem foldl_delete_mem (ids : List Nat) (conn : Conn) (r : MemoryRow)
    (hr : r ∈ (ids.foldl (fun c mid => SecureMemory.delete_memory c mid) conn).pending.memories) :
    r ∈ conn.pending.memories ∧ r.id ∉ ids := by
  induction ids generalizing conn with
  | nil => exact ⟨hr, by simp⟩
  | cons i ids ih =>
    rw [List.foldl_cons] at hr
    obtain ⟨h1, h2⟩ := ih (SecureMemory.delete_memory conn i) hr
    have h3 : r ∈ conn.pending.memories ∧ (r.id != i) = true := by
      simpa [SecureMemory.delete_memory, Conn.commit, List.mem_filter] using h1
    refine ⟨h3.1, ?_⟩
    simp only [List.mem_cons, not_or]
    exact ⟨by simpa using h3.2, h2⟩

/-- C8 (amended): `clear_context(contextId)` deletes every memory
belonging to the context and then the context row itself, but returns
`None` rather than the number of memories deleted. -/
theorem clear_context_deletes_all_returns_none (conn : Conn) (ctx : Str) :
    (∀ r ∈ (SecureMemory.clear_context conn ctx).1.committed.memories, r.contextId ≠ ctx) ∧
    (∀ c ∈ (SecureMemory.clear_context conn ctx).1.committed.contexts, c.id ≠ ctx) ∧
    (SecureMemory.clear_context conn ctx).2 = none := by
  refine ⟨?_, ?_, rfl⟩
  · intro r hr
    have hr2 : r ∈ (((conn.pending.memories.filter
        (fun r => r.contextId == ctx)).map (fun r => r.id)).foldl
          (fun c mid => SecureMemory.delete_memory c mid) conn).pending.memories := hr
    obtain ⟨hmem, hnotin⟩ := foldl_delete_mem _ conn r hr2
    intro hctx
    apply hnotin
    apply List.mem_map_of_mem
    rw [List.mem_filter]
    exact ⟨hmem, by simp [hctx]⟩
  · intro c hc
    have hc2 : (c.id != ctx) = true := (List.mem_filter.mp hc).2
    simpa using hc2

/-- C8 amended theorem applied to the two-memory fixture. -/
theorem clear_context_deletes_all_returns_none_witness :
    (∀ r ∈ (SecureMemory.clear_context connC8 ctxId0).1.committed.memories,
      r.contextId ≠ ctxId0) ∧
    (∀ c ∈ (SecureMemory.clear_context connC8 ctxId0).1.committed.contexts,
      c.id ≠ ctxId0) ∧
    (SecureMemory.clear_context connC8 ctxId0).2 = none :=
  clear_context_deletes_all_returns_none connC8 ctxId0

/-- C4: confirmed — sealing a plaintext under a key and opening it under
the same key returns the plaintext exactly, both at the raw
`encrypt_with_key`/`decrypt_with_key` level and through the
`nonce || ciphertext` framing that `store`/`retrieve` use (prefix the
nonce, split the blob again at byte 12).  The theorem holds for keys of
any length, in particular for every valid 32-byte key. -/
theorem seal_open_round_trip (s : Str) (key nonce : Bytes) (hn : nonce.length = 12) :
    decrypt_with_key (encrypt_with_key s key nonce).1 key nonce = .ok s ∧
    decrypt_with_key ((nonce ++ (encrypt_with_key s key nonce).1).drop 12) key
      ((nonce ++ (encrypt_with_key s key nonce).1).take 12) = .ok s := by
  constructor
  · exact decrypt_with_key_encrypt_with_key s key nonce
  · rw [List.take_left' hn, List.drop_left' hn]
    exact decrypt_with_key_encrypt_with_key s key nonce

/-- C4 round trip at the concrete key, nonce and plaintext "hi". -/
theorem seal_open_round_trip_witness :
    nonce0.length = 12 ∧
    (decrypt_with_key (encrypt_with_key msgC2 keyA nonce0).1 keyA nonce0 = .ok msgC2 ∧
     decrypt_with_key ((nonce0 ++ (encrypt_with_key msgC2 keyA nonce0).1).drop 12) keyA
       ((nonce0 ++ (encrypt_with_key msgC2 keyA nonce0).1).take 12) = .ok msgC2) :=
  ⟨by decide, seal_open_round_trip msgC2 keyA nonce0 (by decide)⟩

/-- C5: confirmed — storing content with an importance and a tag list in
an existing context and retrieving it by the returned id yields exactly
the original content, importance and tag list (hence the same tag set).
Hypotheses: the nonce drawn for the store has the 12 bytes `os.urandom`
produces, the context exists, and all existing row ids are below the
AUTOINCREMENT counter (which SQLite guarantees). -/
theorem store_retrieve_round_trip (conn : Conn) (key nonce : Bytes) (content : Str)
    (ctx : Str) (imp : Int) (tags : List Str)
    (hn : nonce.length = 12)
    (hctx : (conn.pending.contexts.find? (fun c => c.id == ctx)).isSome = true)
    (hfresh : ∀ r ∈ conn.pending.memories, r.id < conn.pending.nextMemoryId) :
    (SecureMemory.store conn key nonce content ctx imp tags).map
      (fun p => SecureMemory.retrieve p.1 key p.2) =
    .ok (.ok ⟨conn.pending.nextMemoryId, content, imp, tags⟩) := by
  have hnone : (conn.pending.contexts.find? (fun c => c.id == ctx)).isNone = false := by
    rcases Option.isSome_iff_exists.mp hctx with ⟨c, hc⟩
    rw [hc]
    rfl
  simp only [SecureMemory.store, hnone, Bool.false_eq_true, if_false, Except.map]
  set mid := conn.pending.nextMemoryId with hmid
  set row : MemoryRow := ⟨mid, ctx, nonce ++ (encrypt_with_key content key nonce).1,
    content, imp, if tags.isEmpty then none else some (jsonDumps tags)⟩ with hrow
  have hfind : ((conn.pending.memories ++ [row]).find? (fun r => r.id == mid)) = some row := by
    rw [List.find?_append]
    have h1 : conn.pending.memories.find? (fun r => r.id == mid) = none := by
      rw [List.find?_eq_none]
      intro r hr
      have hlt := hfresh r hr
      simp only [beq_iff_eq]
      omega
    rw [h1]
    have h2 : (row.id == mid) = true := by simp [hrow]
    simp [List.find?, h2]
  simp only [SecureMemory.retrieve, Conn.commit, hfind]
  have hdec : decrypt_with_key (row.content.drop 12) key (row.content.take 12) =
      .ok content := by
    rw [hrow]
    simp only []
    rw [List.take_left' hn, List.drop_left' hn]
    exact decrypt_with_key_encrypt_with_key content key nonce
  rw [hdec]
  by_cases ht : tags.isEmpty
  · have : tags = [] := by simpa using ht
    subst this
    simp [hrow]
  · simp only [hrow, ht, Bool.false_eq_true, if_false]
    rw [jsonLoads_jsonDumps]

/-- C5 round trip at a concrete store: content "a", importance 8, one
tag "t", in the fixture context. -/
theorem store_retrieve_round_trip_witness :
    nonce0.length = 12 ∧
    (conn0.pending.contexts.find? (fun c => c.id == ctxId0)).isSome = true ∧
    (∀ r ∈ conn0.pending.memories, r.id < conn0.pending.nextMemoryId) ∧
    (SecureMemory.store conn0 keyA nonce0 [97] ctxId0 8 [[116]]).map
      (fun p => SecureMemory.retrieve p.1 keyA p.2) =
    .ok (.ok ⟨conn0.pending.nextMemoryId, [97], 8, [[116]]⟩) :=
  ⟨by decide, by decide, by decide,
    store_retrieve_round_trip conn0 keyA nonce0 [97] ctxId0 8 [[116]]
      (by decide) (by decide) (by decide)⟩

theorem mem_semantic_search {conn : Conn} {embed : Str → List ℚ}
    {sim : List ℚ → List ℚ → ℚ} {query : Str} {contextId : Option Str}
    {limit : Nat} {threshold : ℚ} {r : EmbeddingMemory.SemanticHit}
    (hr : r ∈ EmbeddingMemory.semantic_search conn embed sim query contextId limit threshold) :
    ∃ m ∈ conn.pending.memories, ∃ e ∈ conn.pending.embeddings,
      r = ⟨m.id, m.content, m.importance, m.tags, sim (embed query) e.embedding⟩ ∧
      threshold ≤ sim (embed query) e.embedding := by
  simp only [EmbeddingMemory.semantic_search] at hr
  have hr2 := List.mem_of_mem_take hr
  have hr3 := (List.perm_insertionSort EmbeddingMemory.hitGE _).mem_iff.mp hr2
  rcases List.mem_filterMap.mp hr3 with ⟨m, hm, he⟩
  have hmm : m ∈ conn.pending.memories := by
    cases contextId with
    | none => exact hm
    | some cid => exact List.mem_of_mem_filter hm
  split at he
  · exact absurd he (by simp)
  · rename_i e hfind
    split at he
    · rename_i hth
      exact ⟨m, hmm, e, List.mem_of_find?_eq_some hfind, (Option.some.inj he).symm, hth⟩
    · exact absurd he (by simp)

/-- C7: confirmed — every row returned by `semantic_search` scores at
least the threshold, the returned list is sorted descending by the pair
(similarity, importance) — hence non-increasing in similarity — and has
at most `limit` elements.  The embedding model and the floating-point
cosine computation are the opaque oracles `embed` and `sim`; the
property holds for every instantiation of them. -/
theorem semantic_search_ranked (conn : Conn) (embed : Str → List ℚ)
    (sim : List ℚ → List ℚ → ℚ) (query : Str) (contextId : Option Str)
    (limit : Nat) (threshold : ℚ) :
    (∀ r ∈ EmbeddingMemory.semantic_search conn embed sim query contextId limit threshold,
      threshold ≤ r.similarity) ∧
    List.Sorted EmbeddingMemory.hitGE
      (EmbeddingMemory.semantic_search conn embed sim query contextId limit threshold) ∧
    List.Sorted (fun a b : ℚ => b ≤ a)
      ((EmbeddingMemory.semantic_search conn embed sim query contextId limit threshold).map
        EmbeddingMemory.SemanticHit.similarity) ∧
    (EmbeddingMemory.semantic_search conn embed sim query contextId limit threshold).length
      ≤ limit := by
  have hsorted : List.Sorted EmbeddingMemory.hitGE
      (EmbeddingMemory.semantic_search conn embed sim query contextId limit threshold) := by
    simp only [EmbeddingMemory.semantic_search]
    exact (List.sorted_insertionSort _ _).sublist (List.take_sublist _ _)
  refine ⟨?_, hsorted, ?_, ?_⟩
  · intro r hr
    rcases mem_semantic_search hr with ⟨m, _, e, _, rfl, hth⟩
    exact hth
  · refine List.Pairwise.map _ ?_ hsorted
    intro a b hab
    rcases hab with h1 | ⟨h1, _⟩
    · exact le_of_lt h1
    · exact le_of_eq h1
  · simp only [EmbeddingMemory.semantic_search]
    rw [List.length_take]
    exact min_le_left _ _

/-- C7 ranking properties at a concrete one-row store and concrete
oracles. -/
theorem semantic_search_ranked_witness :
    (∀ r ∈ EmbeddingMemory.semantic_search connC7 embed0 sim0 [] (some ctxId0) 10 0,
      (0 : ℚ) ≤ r.similarity) ∧
    List.Sorted EmbeddingMemory.hitGE
      (EmbeddingMemory.semantic_search connC7 embed0 sim0 [] (some ctxId0) 10 0) ∧
    List.Sorted (fun a b : ℚ => b ≤ a)
      ((EmbeddingMemory.semantic_search connC7 embed0 sim0 [] (some ctxId0) 10 0).map
        EmbeddingMemory.SemanticHit.similarity) ∧
    (EmbeddingMemory.semantic_search connC7 embed0 sim0 [] (some ctxId0) 10 0).length ≤ 10 :=
  semantic_search_ranked connC7 embed0 sim0 [] (some ctxId0) 10 0

/-- C10: confirmed — every hit of `semantic_search` carries the raw
columns of a stored memory row: the `content` field is the persisted
blob (`nonce||ciphertext` bytes, never the decrypted plaintext — the
result row is typed `Bytes`, not `Str`) and the `tags` field is the
serialized column value (`none` or the JSON string), not a parsed list:
the function performs no decryption and no tag parsing. -/
theorem semantic_search_returns_raw_columns (conn : Conn) (embed : Str → List ℚ)
    (sim : List ℚ → List ℚ → ℚ) (query : Str) (contextId : Option Str)
    (limit : Nat) (threshold : ℚ) :
    (EmbeddingMemory.semantic_search conn embed sim query contextId limit threshold).map
      (fun r => (r.id, r.content, r.tags)) ⊆
    conn.pending.memories.map (fun m => (m.id, m.content, m.tags)) := by
  intro x hx
  rcases List.mem_map.mp hx with ⟨r, hr, rfl⟩
  rcases mem_semantic_search hr with ⟨m, hm, e, _, rfl, _⟩
  exact List.mem_map_of_mem _ hm

/-- C10 raw-column property at the concrete one-row store. -/
theorem semantic_search_returns_raw_columns_witness :
    (EmbeddingMemory.semantic_search connC7 embed0 sim0 [] none 10 0).map
      (fun r => (r.id, r.content, r.tags)) ⊆
    connC7.pending.memories.map (fun m => (m.id, m.content, m.tags)) :=
  semantic_search_returns_raw_columns connC7 embed0 sim0 [] none 10 0
